import Mathlib

/-!
Shallow embedding of the runlib module of in-toto-rs (src/runlib.rs): the
artifact-recording traversal (record_artifact, record_artifacts,
dir_entry_to_path), the command runner (run_command) and the link assembler
(in_toto_run), together with theorems checking the natural-language
specification against this embedding.

Modelling conventions:
- The filesystem is an explicit snapshot (structure FS) of oracles for
  symlink_metadata, read_link, File::open + calculate_hashes, the
  VirtualTargetPath constructor, and the stream of entries the external
  walkdir iterator yields for a given root.  Each source function is a pure
  Lean function of that snapshot.
- Rust BTreeMap is embedded as a strictly sorted association list over the
  byte-lexicographic string order (code-point order coincides with UTF-8
  byte order, so this is the order Rust uses for String keys).
- Rust paths that may fail .to_str() are embedded as RawPath: either a
  valid UTF-8 string or an opaquely displayed invalid path.
- Fallible Rust code returning Result is embedded with Except Error; the
  out-of-bounds index cmd_args[0] in run_command, which panics rather than
  returning Result, is embedded as the none case of an outer Option.
- Child-process execution and UTF-8 decoding of its captured streams are
  oracles in a World structure; the re-emission of the captured bytes to
  the caller streams is a side effect outside the model.
-/

/-- Modelled from the spec: the fixed registry of supported hash algorithms
is provided by the crypto module, which is outside this source file; the
spec fixes an enumerated identifier set containing "sha256" and "sha512",
with Sha256 the canonical default (the default constructor name Sha256 also
appears literally in the source). -/
inductive HashAlgorithm : Type
  | Sha256
  | Sha512
deriving DecidableEq

/-- Modelled from the spec: the registry lookup table used by the source as
HashAlgorithm::return_all, a map from the algorithm name strings to the
corresponding HashAlgorithm values. -/
def HashAlgorithm.return_all : List (String × HashAlgorithm) :=
  [("sha256", .Sha256), ("sha512", .Sha512)]

/-- Embedding of std::fs::FileType as observed through symlink_metadata:
exactly one of a regular file, a directory, a symbolic link, or some other
file kind. -/
inductive FileType : Type
  | file
  | dir
  | symlink
  | other
deriving DecidableEq

/-- Embedding of FileType::is_file. -/
def FileType.is_file : FileType → Bool
  | .file => true
  | _ => false

/-- Embedding of FileType::is_symlink. -/
def FileType.is_symlink : FileType → Bool
  | .symlink => true
  | _ => false

/-- Embedding of an OS path value whose conversion to text (Path::to_str)
may fail: either valid UTF-8 text, or an invalid path carrying only its
lossy display form. -/
inductive RawPath : Type
  | valid (s : String)
  | invalid (display : String)
deriving DecidableEq

/-- Embedding of Path::to_str. -/
def RawPath.to_str : RawPath → Option String
  | .valid s => some s
  | .invalid _ => none

/-- Embedding of Path::display (the text used in error messages). -/
def RawPath.display : RawPath → String
  | .valid s => s
  | .invalid d => d

/-- Embedding of walkdir::Error as consumed by the source: whether
loop_ancestor() is Some (a symlink cycle back to an ancestor directory),
the optional offending path, and the Display text of the error. -/
structure WalkError : Type where
  is_loop : Bool
  err_path : Option RawPath
  msg : String
deriving DecidableEq

/-- Embedding of walkdir::DirEntry as consumed by the source: its path. -/
structure DirEntry : Type where
  entry_path : RawPath
deriving DecidableEq

/-- Embedding of one item yielded by the walkdir iterator: the depth of the
yielded entry below the root (used by skip_current_dir) and the
Result of the yield. -/
structure WalkEvent : Type where
  depth : Nat
  res : Except WalkError DirEntry

/-- Embedding of the error type of the crate as used by this module. -/
inductive Error : Type
  | UnknownHashAlgorithm (s : String)
  | Programming (s : String)
  | IoError (s : String)
  | IllegalArgument (s : String)
deriving DecidableEq

/-- Digest values are opaque byte sequences produced by the external hash
primitive library; they are embedded as natural numbers. -/
abbrev HashValue := Nat

/-- Embedding of TargetDescription: the digests computed for one artifact,
one per requested algorithm. -/
abbrev TargetDescription := List (HashAlgorithm × HashValue)

/-- Byte-wise comparison of characters by code point. -/
def charLtB (c d : Char) : Bool := c.toNat < d.toNat

/-- Lexicographic comparison of character lists by code point; on valid
unicode scalar values this coincides with byte-lexicographic comparison of
the UTF-8 encodings, which is the Ord Rust uses for String. -/
def charListLtB : List Char → List Char → Bool
  | [], [] => false
  | [], _ :: _ => true
  | _ :: _, [] => false
  | c :: cs, d :: ds =>
    if charLtB c d then true
    else if charLtB d c then false
    else charListLtB cs ds

/-- Embedding of the strict order on String keys used by BTreeMap. -/
def strLtB (a b : String) : Bool := charListLtB a.data b.data

/-- Embedding of BTreeMap::insert on a strictly sorted association list:
keeps the list sorted by key and overwrites the value on an equal key. -/
def btInsert {β : Type} (k : String) (v : β) :
    List (String × β) → List (String × β)
  | [] => [(k, v)]
  | (k', v') :: t =>
    if strLtB k k' then (k, v) :: (k', v') :: t
    else if strLtB k' k then (k', v') :: btInsert k v t
    else (k, v) :: t

/-- Lookup in the association-list embedding of BTreeMap. -/
def btFind {β : Type} (k : String) : List (String × β) → Option β
  | [] => none
  | (k', v') :: t => if k = k' then some v' else btFind k t

/-- Embedding of the BTreeMap from VirtualTargetPath to TargetDescription
that record_artifacts returns; VirtualTargetPath values are the normalized
path strings. -/
abbrev ArtifactMap := List (String × TargetDescription)

/-- Invariant of the sorted-association-list embedding of BTreeMap: keys
strictly increase along the list. -/
def SortedKeys {β : Type} (l : List (String × β)) : Prop :=
  List.Pairwise (fun p q => strLtB p.1 q.1 = true) l

/-- Splitting of a character list at slashes, accumulating the current
component in reverse; helper for the path normalization model. -/
def splitSlashAux : List Char → List Char → List (List Char)
  | [], acc => [acc.reverse]
  | c :: cs, acc =>
    if c = '/' then acc.reverse :: splitSlashAux cs []
    else splitSlashAux cs (c :: acc)

/-- Joining of path components with slashes; helper for the path
normalization model. -/
def joinSlash : List (List Char) → List Char
  | [] => []
  | [x] => x
  | x :: xs => x ++ '/' :: joinSlash xs

/-- Modelled from the spec: the path normalization the source delegates to
the external path_clean crate (clean of empty and dot segments, resolution
of parent segments, following the Go path.Clean rules). -/
def clean (path : String) : String :=
  let comps := splitSlashAux path.data []
  let is_abs : Bool := match path.data with
    | '/' :: _ => true
    | _ => false
  let rev := comps.foldl (fun acc c =>
    if c = ([] : List Char) || c = ['.'] then acc
    else if c = ['.', '.'] then
      match acc with
      | [] => if is_abs then [] else [['.', '.']]
      | top :: rest => if top = ['.', '.'] then c :: acc else rest
    else c :: acc) []
  let body := joinSlash rev.reverse
  if is_abs then String.mk ('/' :: body)
  else if body = [] then (".") else String.mk body

/-- Modelled from the spec: the effect of walkdir IntoIter::skip_current_dir
on the rest of the yield stream, after an entry of the given depth was just
yielded: the contents of that entry (the following contiguous run of
strictly deeper events) are dropped. -/
def skip_current_dir (d : Nat) (evs : List WalkEvent) : List WalkEvent :=
  evs.dropWhile (fun e => d < e.depth)

/-- Snapshot of the filesystem state as observed through the operations the
source uses: symlink_metadata, read_link, File::open followed by
crypto::calculate_hashes, the VirtualTargetPath constructor of the models
module, and the event stream the walkdir iterator produces for a root.
Option none embeds the Err case of the corresponding fallible operation. -/
structure FS : Type where
  meta : String → Option FileType
  read_link : String → Option RawPath
  calculate_hashes : String → List HashAlgorithm → Option TargetDescription
  virtual_target_path : String → Option String
  walk : String → List WalkEvent

/-- Embedding of record_artifact: open and hash the file at the path with
every requested algorithm, and pair the VirtualTargetPath with the digest
map. -/
def record_artifact (fs : FS) (path : String)
    (hash_algorithms : List HashAlgorithm) :
    Except Error (String × TargetDescription) :=
  match fs.calculate_hashes path hash_algorithms with
  | none => .error (.IoError path)
  | some hashes =>
    match fs.virtual_target_path path with
    | none => .error (.IllegalArgument path)
    | some vtp => .ok (vtp, hashes)

/-- Embedding of the private helper dir_entry_to_path: an Ok entry yields
its cleaned path when it is valid UTF-8 and a Programming error otherwise;
an Err with loop_ancestor set and a valid path is the recoverable cycle
case and yields that cleaned path; every other Err is fatal. -/
def dir_entry_to_path (entry : Except WalkError DirEntry) :
    Except Error String :=
  match entry with
  | .ok dir_entry =>
    match dir_entry.entry_path.to_str with
    | some str => .ok (clean str)
    | none =>
      .error (.Programming
        ("Invalid Path " ++ dir_entry.entry_path.display ++ "; non-UTF-8 string"))
  | .error error =>
    if error.is_loop then
      match error.err_path with
      | none => .error (.IoError ("Walkdir Error: " ++ error.msg))
      | some error_path =>
        match error_path.to_str with
        | some str => .ok (clean str)
        | none =>
          .error (.Programming
            ("Invalid Path " ++ error_path.display ++ "; non-UTF-8 string"))
    else .error (.IoError ("Walkdir Error: " ++ error.msg))

/-- Embedding of the hash-algorithm validation loop at the top of
record_artifacts: the names are resolved against the registry in order,
and the first unknown name aborts with UnknownHashAlgorithm. -/
def validateAlgorithms : List String → Except Error (List HashAlgorithm)
  | [] => .ok []
  | h :: t =>
    match HashAlgorithm.return_all.lookup h with
    | none => .error (.UnknownHashAlgorithm h)
    | some value =>
      match validateAlgorithms t with
      | .error e => .error e
      | .ok rest => .ok (value :: rest)

/-- Embedding of the match on the optional hash_algorithms argument of
record_artifacts: Some names are validated, None defaults to Sha256. -/
def selectAlgorithms : Option (List String) → Except Error (List HashAlgorithm)
  | some hashes => validateAlgorithms hashes
  | none => .ok [HashAlgorithm.Sha256]

/-- Embedding of the inner walk loop of record_artifacts for one root. The
fuel argument is the structural recursion measure; the caller passes the
length of the event stream, which the loop never exhausts because every
iteration consumes at least the head event.  The ok result carries the
artifacts accumulated so far, both when the stream ends and when the
source breaks out of the loop on a non-UTF-8 symlink target. The source
tests is_symlink and is_file on the same symlink_metadata file type in
sequence; the file type is exactly one of the four kinds, so the second
test is reached with a true value only when the first was false, which the
nested conditional below makes explicit. -/
def walk_loop (fs : FS) (hash_algorithms : List HashAlgorithm) :
    Nat → List WalkEvent → List String → ArtifactMap →
    Except Error ArtifactMap
  | _, [], _, artifacts => .ok artifacts
  | 0, _ :: _, _, artifacts => .ok artifacts
  | fuel + 1, ev :: rest, visited_sym_links, artifacts =>
    match dir_entry_to_path ev.res with
    | .error e => .error e
    | .ok path =>
      match fs.meta path with
      | none => .error (.IoError path)
      | some file_type =>
        if file_type.is_symlink then
          if visited_sym_links.contains path then
            walk_loop fs hash_algorithms fuel
              (skip_current_dir ev.depth rest) visited_sym_links artifacts
          else
            match fs.read_link path with
            | none => .error (.IoError path)
            | some link_target =>
              match link_target.to_str with
              | none => .ok artifacts
              | some s_path =>
                match fs.meta s_path with
                | none => .error (.IoError s_path)
                | some target_type =>
                  if target_type.is_file then
                    match record_artifact fs path hash_algorithms with
                    | .error e => .error e
                    | .ok (virtual_target_path, hashes) =>
                      walk_loop fs hash_algorithms fuel rest
                        (path :: visited_sym_links)
                        (btInsert virtual_target_path hashes artifacts)
                  else
                    walk_loop fs hash_algorithms fuel rest
                      (path :: visited_sym_links) artifacts
        else if file_type.is_file then
          match record_artifact fs path hash_algorithms with
          | .error e => .error e
          | .ok (virtual_target_path, hashes) =>
            walk_loop fs hash_algorithms fuel rest visited_sym_links
              (btInsert virtual_target_path hashes artifacts)
        else
          walk_loop fs hash_algorithms fuel rest visited_sym_links artifacts

/-- Embedding of the outer for loop of record_artifacts: each root path is
walked with a fresh walkdir iterator and a fresh empty visited set, the
artifacts map accumulating across roots. -/
def walk_roots (fs : FS) (hash_algorithms : List HashAlgorithm) :
    List String → ArtifactMap → Except Error ArtifactMap
  | [], artifacts => .ok artifacts
  | root :: rest, artifacts =>
    match walk_loop fs hash_algorithms (fs.walk root).length (fs.walk root)
        [] artifacts with
    | .error e => .error e
    | .ok artifacts' => walk_roots fs hash_algorithms rest artifacts'

/-- Embedding of record_artifacts: validate the requested algorithm names
against the registry (defaulting to Sha256), then walk every root path and
accumulate the artifact map. -/
def record_artifacts (fs : FS) (paths : List String)
    (hash_algorithms : Option (List String)) : Except Error ArtifactMap :=
  match selectAlgorithms hash_algorithms with
  | .error e => .error e
  | .ok algs => walk_roots fs algs paths []

/-- Embedding of the output of std::process::Command::output: the captured
byte streams and the optional exit code (none when the process was
terminated by a signal). -/
structure ProcOutput : Type where
  stdout : List Nat
  stderr : List Nat
  code : Option Int

/-- Oracles for the process-facing operations run_command uses: whether
VirtualTargetPath::new accepts an argument string, the result of
std::fs::canonicalize (none embeds Err), the result of spawning the
executable with the given arguments and working directory (none embeds a
spawn failure), and UTF-8 decoding of captured bytes (the error case
carries the Display text of the Utf8Error). -/
structure World : Type where
  vtp_ok : String → Bool
  canonicalize : String → Option RawPath
  spawn : String → List String → Option String → Option ProcOutput
  decode : List Nat → Except String String

/-- Embedding of the argument-mapping closure in run_command: for each
argument after the executable, when it parses as a VirtualTargetPath a
canonicalization is attempted and its result bound and then dropped, and
the original argument is returned in every case. -/
def run_command_args (vtp_ok : String → Bool)
    (canonicalize : String → Option RawPath)
    (cmd_args : List String) : List String :=
  (cmd_args.drop 1).map (fun arg =>
    if vtp_ok arg then
      let _absolute_path :=
        match canonicalize arg with
        | some path_buf =>
          match path_buf.to_str with
          | some p => p
          | none => arg
        | none => arg
      arg
    else arg)

/-- Embedding of the exit-status formatting in run_command: the decimal
exit code, or the fixed sentinel when the process has no exit code. -/
def status_string : Option Int → String
  | some code => toString code
  | none => "Process terminated by signal"

/-- Embedding of run_command. The outer Option embeds the panic of the
unchecked index cmd_args[0]: none when cmd_args is empty. The three
byproduct entries are inserted in source order: stdout, stderr,
return-value. -/
def run_command (w : World) (cmd_args : List String)
    (run_dir : Option String) :
    Option (Except Error (List (String × String))) :=
  match cmd_args.get? 0 with
  | none => none
  | some executable =>
    let args := run_command_args w.vtp_ok w.canonicalize cmd_args
    some (
      match w.spawn executable args run_dir with
      | none => .error (.IoError ("spawn"))
      | some output =>
        match w.decode output.stdout with
        | .error error => .error (.IoError ("Utf8Error: " ++ error))
        | .ok stdout_str =>
          match w.decode output.stderr with
          | .error error => .error (.IoError ("Utf8Error: " ++ error))
          | .ok stderr_str =>
            .ok (btInsert ("return-value") (status_string output.code)
              (btInsert ("stderr") stderr_str
                (btInsert ("stdout") stdout_str []))))

/-- Embedding of LinkMetadata as assembled by in_toto_run through the
builder: name, materials, products and byproducts. -/
structure LinkMetadata : Type where
  name : String
  materials : ArtifactMap
  products : ArtifactMap
  byproducts : List (String × String)

/-- Signing keys are opaque to this module; they are embedded as natural
numbers. -/
abbrev PrivateKey := Nat

/-- Embedding of the Metablock returned by in_toto_run: the assembled link
either signed with the supplied key or wrapped unsigned. -/
inductive Metablock : Type
  | signed (link : LinkMetadata) (key : PrivateKey)
  | unsigned (link : LinkMetadata)

/-- Observable steps of in_toto_run, used to state its temporal ordering:
the three effectful phases in the order the source performs them. -/
inductive RunEvent : Type
  | record_materials
  | run_the_command
  | record_products
deriving DecidableEq

/-- Writer-style bind threading the event trace of in_toto_run: an error
stops the sequence and keeps the trace accumulated so far. -/
def wbind {α β : Type} (x : Except Error α × List RunEvent)
    (f : α → Except Error β × List RunEvent) :
    Except Error β × List RunEvent :=
  match x with
  | (.error e, t) => (.error e, t)
  | (.ok a, t) => ((f a).1, t ++ (f a).2)

/-- Modelled from the spec: the LinkMetadataBuilder of the models module
and the external signer are outside this source file; assembling the
record and signing it exactly when a key is supplied is embedded as a
total constructor choice. -/
def assemble (name : String) (materials products : ArtifactMap)
    (byproducts : List (String × String)) (key : Option PrivateKey) :
    Except Error Metablock :=
  match key with
  | some k => .ok (.signed ⟨name, materials, products, byproducts⟩ k)
  | none => .ok (.unsigned ⟨name, materials, products, byproducts⟩)

/-- Embedding of in_toto_run, instrumented with the trace of its effectful
phases: record materials, run the command, record products, then assemble
and optionally sign. The outer Option propagates the cmd_args[0] panic of
run_command; the trace of a completed prefix is kept when a later phase
fails. -/
def in_toto_run (w : World) (fs : FS) (name : String)
    (run_dir : Option String)
    (material_paths product_paths : List String)
    (cmd_args : List String) (key : Option PrivateKey)
    (hash_algorithms : Option (List String)) :
    Option (Except Error Metablock × List RunEvent) :=
  match record_artifacts fs material_paths hash_algorithms with
  | .error e => some (.error e, [RunEvent.record_materials])
  | .ok materials =>
    match run_command w cmd_args run_dir with
    | none => none
    | some byproducts_res =>
      let rest :=
        wbind (byproducts_res, [RunEvent.run_the_command]) (fun byproducts =>
          wbind (record_artifacts fs product_paths hash_algorithms,
              [RunEvent.record_products]) (fun products =>
            (assemble name materials products byproducts key, [])))
      some (rest.1, RunEvent.record_materials :: rest.2)

/-- Digest fixture used by the concrete witnesses. -/
def tdA : TargetDescription := [(HashAlgorithm.Sha256, 7)]

/-- Filesystem fixture: a root directory holding a regular file and a
symlink to it, and a second root holding a symlink whose target path is
not valid UTF-8 followed by a regular file. -/
def fsA : FS where
  meta := fun p =>
    if p = "root" then some .dir
    else if p = "root/f" then some .file
    else if p = "root/s" then some .symlink
    else if p = "badroot" then some .dir
    else if p = "badroot/bad" then some .symlink
    else if p = "badroot/g" then some .file
    else none
  read_link := fun p =>
    if p = "root/s" then some (.valid ("root/f"))
    else if p = "badroot/bad" then some (.invalid ("xx"))
    else none
  calculate_hashes := fun p _ =>
    if p = "root/f" then some tdA
    else if p = "root/s" then some tdA
    else if p = "badroot/g" then some tdA
    else none
  virtual_target_path := fun p => some p
  walk := fun r =>
    if r = "root" then
      [⟨0, .ok ⟨.valid ("root")⟩⟩, ⟨1, .ok ⟨.valid ("root/f")⟩⟩,
       ⟨1, .ok ⟨.valid ("root/s")⟩⟩]
    else if r = "badroot" then
      [⟨0, .ok ⟨.valid ("badroot")⟩⟩, ⟨1, .ok ⟨.valid ("badroot/bad")⟩⟩,
       ⟨1, .ok ⟨.valid ("badroot/g")⟩⟩]
    else []

/-- Process-output fixture: the bytes of the text hello on stdout, nothing
on stderr, exit code zero. -/
def outA : ProcOutput := ⟨[104, 101, 108, 108, 111], [], some 0⟩

/-- World fixture matching the documented example command sh -c printf
hello run in the tests directory. -/
def wA : World where
  vtp_ok := fun _ => false
  canonicalize := fun _ => none
  spawn := fun _ _ _ => some outA
  decode := fun bytes =>
    if bytes = [] then .ok ("")
    else if bytes = [104, 101, 108, 108, 111] then .ok ("hello")
    else .error ("invalid utf-8")

/-- Process-output fixture whose stdout bytes are not valid UTF-8. -/
def outBad : ProcOutput := ⟨[255], [], some 1⟩

/-- World fixture whose spawned process produces undecodable stdout. -/
def wBad : World where
  vtp_ok := fun _ => false
  canonicalize := fun _ => none
  spawn := fun _ _ _ => some outBad
  decode := fun bytes =>
    if bytes = [] then .ok ("") else .error ("invalid utf-8 sequence")

/-- Sequential insertion of a list of entries into the sorted-map
embedding, in list order; used to state that the artifact map does not
depend on the order in which the traversal inserted its entries. -/
def insertAll {β : Type} :
    List (String × β) → List (String × β) → List (String × β)
  | [], init => init
  | p :: t, init => insertAll t (btInsert p.1 p.2 init)

/-- Evaluation of the three byproduct insertions of run_command into the
sorted-map embedding. -/
theorem byproducts_build (v e o : String) :
    btInsert ("return-value") v (btInsert ("stderr") e
      (btInsert ("stdout") o [])) =
    [("return-value", v), ("stderr", e), ("stdout", o)] := rfl

/-- C5: for every call to run_command, each argument after the executable
that parses as a plausible path is subjected to a canonicalization attempt
whose result is discarded in all cases: the argument list actually passed
to the child process is always the original argument strings, whatever the
canonicalization oracle does. -/
theorem run_command_args_passthrough (vtp_ok : String → Bool)
    (canonicalize : String → Option RawPath) (cmd_args : List String) :
    run_command_args vtp_ok canonicalize cmd_args = cmd_args.drop 1 := by
  simp [run_command_args]

/-- C9: run_command indexes the head of cmd_args without an emptiness
check: for every cmd_args of length at least one the access is in bounds
and the call proceeds, while the empty argument list hits the out-of-bounds
index, embedded as the none result, instead of a typed error. -/
theorem run_command_head_index :
    (∀ (w : World) (cmd_args : List String) (run_dir : Option String),
        1 ≤ cmd_args.length → (run_command w cmd_args run_dir).isSome = true) ∧
    (∀ (w : World) (run_dir : Option String),
        run_command w [] run_dir = none) := by
  constructor
  · intro w cmd_args run_dir h
    match cmd_args, h with
    | a :: t, _ => simp [run_command]
  · intro w run_dir
    rfl

/-- Closed instance of run_command_head_index: a one-element argument list
is accepted while the empty list hits the unchecked index. -/
theorem run_command_head_index_witness :
    (run_command wA ["sh"] none).isSome = true :=
  run_command_head_index.1 wA ["sh"] none (by decide)

/-- C6: when the child process spawns and both captured streams decode as
UTF-8, run_command returns a map with exactly the three keys stdout,
stderr and return-value, where return-value is the decimal exit code of
the process, or the fixed sentinel string when the process has no exit
code. -/
theorem run_command_byproducts_shape :
    (∀ (w : World) (cmd_args : List String) (run_dir : Option String)
        (executable : String) (output : ProcOutput) (out_str err_str : String),
      cmd_args.get? 0 = some executable →
      w.spawn executable (run_command_args w.vtp_ok w.canonicalize cmd_args)
          run_dir = some output →
      w.decode output.stdout = .ok out_str →
      w.decode output.stderr = .ok err_str →
      run_command w cmd_args run_dir =
        some (.ok [("return-value", status_string output.code),
          ("stderr", err_str), ("stdout", out_str)])) ∧
    (∀ c : Int, status_string (some c) = toString c) ∧
    status_string none = "Process terminated by signal" := by
  refine ⟨?_, fun c => rfl, rfl⟩
  intro w cmd_args run_dir executable output out_str err_str hexe hspawn hout herr
  cases cmd_args with
  | nil => simp at hexe
  | cons a t =>
    simp only [List.get?] at hexe
    cases hexe
    simp [run_command, hspawn, hout, herr, byproducts_build]

/-- Closed instance of run_command_byproducts_shape reproducing the
documented example: the command sh -c printf hello run in the tests
directory yields stdout hello, empty stderr and return-value 0. -/
theorem run_command_byproducts_shape_witness :
    run_command wA ["sh", "-c", "printf hello"] (some ("tests")) =
      some (.ok [("return-value", "0"), ("stderr", ""), ("stdout", "hello")]) :=
  run_command_byproducts_shape.1 wA ["sh", "-c", "printf hello"]
    (some ("tests")) ("sh") outA ("hello") ("") (by rfl) (by rfl) (by rfl)
    (by rfl)

/-- C7: when either captured stream of the child process is not valid
UTF-8, run_command fails with an error and returns no byproducts map at
all, also when the other stream did decode. -/
theorem run_command_utf8_failure_fatal :
    (∀ (w : World) (cmd_args : List String) (run_dir : Option String)
        (executable : String) (output : ProcOutput) (msg : String),
      cmd_args.get? 0 = some executable →
      w.spawn executable (run_command_args w.vtp_ok w.canonicalize cmd_args)
          run_dir = some output →
      w.decode output.stdout = .error msg →
      run_command w cmd_args run_dir =
        some (.error (.IoError ("Utf8Error: " ++ msg)))) ∧
    (∀ (w : World) (cmd_args : List String) (run_dir : Option String)
        (executable : String) (output : ProcOutput) (out_str msg : String),
      cmd_args.get? 0 = some executable →
      w.spawn executable (run_command_args w.vtp_ok w.canonicalize cmd_args)
          run_dir = some output →
      w.decode output.stdout = .ok out_str →
      w.decode output.stderr = .error msg →
      run_command w cmd_args run_dir =
        some (.error (.IoError ("Utf8Error: " ++ msg)))) := by
  constructor
  · intro w cmd_args run_dir executable output msg hexe hspawn hout
    cases cmd_args with
    | nil => simp at hexe
    | cons a t =>
      simp only [List.get?] at hexe
      cases hexe
      simp [run_command, hspawn, hout]
  · intro w cmd_args run_dir executable output out_str msg hexe hspawn hout herr
    cases cmd_args with
    | nil => simp at hexe
    | cons a t =>
      simp only [List.get?] at hexe
      cases hexe
      simp [run_command, hspawn, hout, herr]

/-- Closed instance of run_command_utf8_failure_fatal: a process whose
stdout bytes are undecodable makes the whole call fail. -/
theorem run_command_utf8_failure_fatal_witness :
    run_command wBad ["sh"] none =
      some (.error (.IoError ("Utf8Error: invalid utf-8 sequence"))) :=
  run_command_utf8_failure_fatal.1 wBad ["sh"] none ("sh") outBad
    ("invalid utf-8 sequence") (by rfl) (by rfl) (by rfl)

/-- Resolution of the requested algorithm names stops at the first name
missing from the registry and reports exactly that name. -/
theorem validateAlgorithms_first_unknown (pre : List String) (bad : String)
    (rest : List String)
    (hpre : ∀ x ∈ pre, (HashAlgorithm.return_all.lookup x).isSome = true)
    (hbad : HashAlgorithm.return_all.lookup bad = none) :
    validateAlgorithms (pre ++ bad :: rest) =
      .error (.UnknownHashAlgorithm bad) := by
  induction pre with
  | nil => simp [validateAlgorithms, hbad]
  | cons x xs ih =>
    have hx := hpre x (by simp)
    obtain ⟨v, hv⟩ := Option.isSome_iff_exists.mp hx
    have := ih (fun y hy => hpre y (by simp [hy]))
    simp [validateAlgorithms, hv, this]

/-- C3: for every call to record_artifacts with Some list of algorithm
names, when a name is missing from the supported registry the call fails
with UnknownHashAlgorithm naming the first unrecognized string, and it
does so for every filesystem snapshot alike, so the validation decides
before any filesystem access; with None the traversal runs with the single
canonical default algorithm Sha256. -/
theorem record_artifacts_algorithm_validation :
    (∀ (pre : List String) (bad : String) (rest : List String),
      (∀ x ∈ pre, (HashAlgorithm.return_all.lookup x).isSome = true) →
      HashAlgorithm.return_all.lookup bad = none →
      ∀ (fs : FS) (paths : List String),
        record_artifacts fs paths (some (pre ++ bad :: rest)) =
          .error (.UnknownHashAlgorithm bad)) ∧
    (∀ (fs : FS) (paths : List String),
      record_artifacts fs paths none =
        walk_roots fs [HashAlgorithm.Sha256] paths []) := by
  constructor
  · intro pre bad rest hpre hbad fs paths
    simp [record_artifacts, selectAlgorithms,
      validateAlgorithms_first_unknown pre bad rest hpre hbad]
  · intro fs paths
    rfl

/-- Closed instance of record_artifacts_algorithm_validation: requesting
sha256 followed by the unknown name md17 fails naming md17, on the
concrete snapshot. -/
theorem record_artifacts_algorithm_validation_witness :
    record_artifacts fsA ["root"] (some ["sha256", "md17"]) =
      .error (.UnknownHashAlgorithm ("md17")) :=
  record_artifacts_algorithm_validation.1 ["sha256"] ("md17") []
    (by decide) (by decide) fsA ["root"]

/-- C4: a traversal error whose cause is a symlink cycling back to an
ancestor directory is recoverable: the walk loop treats the event exactly
as an ordinary entry at the cleaned link path and continues, while every
other traversal error is fatal for dir_entry_to_path, and through it for
the walk loop, with an error identifying the offender. -/
theorem dir_entry_to_path_loop_recovery :
    (∀ (fs : FS) (algs : List HashAlgorithm) (fuel d : Nat) (s msg : String)
        (rest : List WalkEvent) (visited : List String)
        (artifacts : ArtifactMap),
      walk_loop fs algs (fuel + 1)
          (⟨d, .error ⟨true, some (.valid s), msg⟩⟩ :: rest) visited
          artifacts =
        walk_loop fs algs (fuel + 1) (⟨d, .ok ⟨.valid s⟩⟩ :: rest) visited
          artifacts) ∧
    (∀ (s msg : String),
      dir_entry_to_path (.error ⟨true, some (.valid s), msg⟩) =
        .ok (clean s)) ∧
    (∀ (msg : String) (p : Option RawPath),
      dir_entry_to_path (.error ⟨false, p, msg⟩) =
        .error (.IoError ("Walkdir Error: " ++ msg))) ∧
    (∀ (msg : String),
      dir_entry_to_path (.error ⟨true, none, msg⟩) =
        .error (.IoError ("Walkdir Error: " ++ msg))) ∧
    (∀ (msg disp : String),
      dir_entry_to_path (.error ⟨true, some (.invalid disp), msg⟩) =
        .error (.Programming ("Invalid Path " ++ disp ++ "; non-UTF-8 string"))) ∧
    (∀ (disp : String),
      dir_entry_to_path (.ok ⟨.invalid disp⟩) =
        .error (.Programming ("Invalid Path " ++ disp ++ "; non-UTF-8 string"))) ∧
    (∀ (fs : FS) (algs : List HashAlgorithm) (fuel d : Nat) (msg : String)
        (p : Option RawPath) (rest : List WalkEvent) (visited : List String)
        (artifacts : ArtifactMap),
      walk_loop fs algs (fuel + 1) (⟨d, .error ⟨false, p, msg⟩⟩ :: rest)
          visited artifacts =
        .error (.IoError ("Walkdir Error: " ++ msg))) := by
  refine ⟨fun fs algs fuel d s msg rest visited artifacts => rfl,
    fun s msg => rfl, fun msg p => rfl, fun msg => rfl,
    fun msg disp => rfl, fun disp => rfl,
    fun fs algs fuel d msg p rest visited artifacts => rfl⟩

/-- C10: an unvisited symbolic link whose target path is not valid UTF-8
makes the walk loop stop the current root silently: the loop returns ok
with only the artifacts collected so far, whatever entries remain in the
stream, instead of reporting an encoding error. -/
theorem walk_loop_nonutf8_target_breaks (fs : FS)
    (algs : List HashAlgorithm) (fuel : Nat) (ev : WalkEvent)
    (rest : List WalkEvent) (visited : List String)
    (artifacts : ArtifactMap) (path disp : String)
    (hpath : dir_entry_to_path ev.res = .ok path)
    (hmeta : fs.meta path = some .symlink)
    (hvis : visited.contains path = false)
    (hlink : fs.read_link path = some (.invalid disp)) :
    walk_loop fs algs (fuel + 1) (ev :: rest) visited artifacts =
      .ok artifacts := by
  have hvis' : ¬ path ∈ visited := by simpa using hvis
  simp [walk_loop, hpath, hmeta, hvis', hlink, FileType.is_symlink,
    RawPath.to_str]

/-- Closed instance of walk_loop_nonutf8_target_breaks: in the badroot
fixture the undecodable symlink stops the walk before the following
regular file, which is omitted from the ok result. -/
theorem walk_loop_nonutf8_target_breaks_witness :
    walk_loop fsA [HashAlgorithm.Sha256] 2
      [⟨1, .ok ⟨.valid ("badroot/bad")⟩⟩, ⟨1, .ok ⟨.valid ("badroot/g")⟩⟩]
      [] [] = .ok [] :=
  walk_loop_nonutf8_target_breaks fsA [HashAlgorithm.Sha256] 1
    ⟨1, .ok ⟨.valid ("badroot/bad")⟩⟩ [⟨1, .ok ⟨.valid ("badroot/g")⟩⟩]
    [] [] ("badroot/bad") ("xx") (by rfl) (by rfl) (by rfl) (by rfl)

/-- C1: the visited-symlink bookkeeping of record_artifacts. Each root path
starts its walk with a fresh empty visited set; a symlink whose normalized
path is already visited makes the walk skip descending into it via
skip_current_dir; an unvisited symlink is marked visited and, when its
target resolves to a regular file, the link is hashed and inserted into the
result map, and otherwise only marked. -/
theorem record_artifacts_symlink_policy :
    (∀ (fs : FS) (algs : List HashAlgorithm) (root : String)
        (rest : List String) (artifacts artifacts2 : ArtifactMap),
      walk_loop fs algs (fs.walk root).length (fs.walk root) [] artifacts =
          .ok artifacts2 →
      walk_roots fs algs (root :: rest) artifacts =
        walk_roots fs algs rest artifacts2) ∧
    (∀ (fs : FS) (algs : List HashAlgorithm) (fuel : Nat) (ev : WalkEvent)
        (rest : List WalkEvent) (visited : List String)
        (artifacts : ArtifactMap) (path : String),
      dir_entry_to_path ev.res = .ok path →
      fs.meta path = some .symlink →
      visited.contains path = true →
      walk_loop fs algs (fuel + 1) (ev :: rest) visited artifacts =
        walk_loop fs algs fuel (skip_current_dir ev.depth rest) visited
          artifacts) ∧
    (∀ (fs : FS) (algs : List HashAlgorithm) (fuel : Nat) (ev : WalkEvent)
        (rest : List WalkEvent) (visited : List String)
        (artifacts : ArtifactMap) (path s_path : String)
        (link_target : RawPath) (vtp : String) (hashes : TargetDescription),
      dir_entry_to_path ev.res = .ok path →
      fs.meta path = some .symlink →
      visited.contains path = false →
      fs.read_link path = some link_target →
      link_target.to_str = some s_path →
      fs.meta s_path = some .file →
      record_artifact fs path algs = .ok (vtp, hashes) →
      walk_loop fs algs (fuel + 1) (ev :: rest) visited artifacts =
        walk_loop fs algs fuel rest (path :: visited)
          (btInsert vtp hashes artifacts)) ∧
    (∀ (fs : FS) (algs : List HashAlgorithm) (fuel : Nat) (ev : WalkEvent)
        (rest : List WalkEvent) (visited : List String)
        (artifacts : ArtifactMap) (path s_path : String)
        (link_target : RawPath) (target_type : FileType),
      dir_entry_to_path ev.res = .ok path →
      fs.meta path = some .symlink →
      visited.contains path = false →
      fs.read_link path = some link_target →
      link_target.to_str = some s_path →
      fs.meta s_path = some target_type →
      target_type.is_file = false →
      walk_loop fs algs (fuel + 1) (ev :: rest) visited artifacts =
        walk_loop fs algs fuel rest (path :: visited) artifacts) := by
  refine ⟨?_, ?_, ?_, ?_⟩
  · intro fs algs root rest artifacts artifacts2 h
    simp [walk_roots, h]
  · intro fs algs fuel ev rest visited artifacts path hpath hmeta hvis
    have hvis' : path ∈ visited := by simpa using hvis
    simp [walk_loop, hpath, hmeta, hvis', FileType.is_symlink]
  · intro fs algs fuel ev rest visited artifacts path s_path link_target vtp
      hashes hpath hmeta hvis hlink hstr htarget hrec
    have hvis' : ¬ path ∈ visited := by simpa using hvis
    simp [walk_loop, hpath, hmeta, hvis', hlink, hstr, htarget, hrec,
      FileType.is_symlink, FileType.is_file]
  · intro fs algs fuel ev rest visited artifacts path s_path link_target
      target_type hpath hmeta hvis hlink hstr htarget hfile
    have hvis' : ¬ path ∈ visited := by simpa using hvis
    simp [walk_loop, hpath, hmeta, hvis', hlink, hstr, htarget, hfile,
      FileType.is_symlink]

/-- Closed instance of record_artifacts_symlink_policy: in the fixture an
already-visited symlink makes the walk skip the contents of the link, and
an unvisited symlink to a regular file is hashed under the link path. -/
theorem record_artifacts_symlink_policy_witness :
    (walk_loop fsA [HashAlgorithm.Sha256] 2
        [⟨1, .ok ⟨.valid ("root/s")⟩⟩, ⟨2, .ok ⟨.valid ("root/f")⟩⟩]
        ["root/s"] [] =
      walk_loop fsA [HashAlgorithm.Sha256] 1
        (skip_current_dir 1 [⟨2, .ok ⟨.valid ("root/f")⟩⟩]) ["root/s"] []) ∧
    (walk_loop fsA [HashAlgorithm.Sha256] 1 [⟨1, .ok ⟨.valid ("root/s")⟩⟩]
        [] [] =
      walk_loop fsA [HashAlgorithm.Sha256] 0 [] ["root/s"]
        (btInsert ("root/s") tdA [])) :=
  ⟨record_artifacts_symlink_policy.2.1 fsA [HashAlgorithm.Sha256] 1
      ⟨1, .ok ⟨.valid ("root/s")⟩⟩ [⟨2, .ok ⟨.valid ("root/f")⟩⟩]
      ["root/s"] [] ("root/s") (by rfl) (by rfl) (by rfl),
    record_artifacts_symlink_policy.2.2.1 fsA [HashAlgorithm.Sha256] 0
      ⟨1, .ok ⟨.valid ("root/s")⟩⟩ [] [] [] ("root/s") ("root/f")
      (.valid ("root/f")) ("root/s") tdA (by rfl) (by rfl) (by rfl)
      (by rfl) (by rfl) (by rfl) (by rfl)⟩

/-- C8: in_toto_run performs the strict sequence record materials, run the
command, record products, assemble: a materials failure stops before the
command runs, a command failure stops before products are recorded, and on
success the trace is exactly the three phases in order and the result is a
signed envelope exactly when a key is supplied and an unsigned record
otherwise. -/
theorem in_toto_run_ordering :
    (∀ (w : World) (fs : FS) (name : String) (run_dir : Option String)
        (material_paths product_paths : List String)
        (cmd_args : List String) (key : Option PrivateKey)
        (algs : Option (List String)) (e : Error),
      record_artifacts fs material_paths algs = .error e →
      in_toto_run w fs name run_dir material_paths product_paths cmd_args
          key algs = some (.error e, [RunEvent.record_materials])) ∧
    (∀ (w : World) (fs : FS) (name : String) (run_dir : Option String)
        (material_paths product_paths : List String)
        (cmd_args : List String) (key : Option PrivateKey)
        (algs : Option (List String)) (materials : ArtifactMap) (e : Error),
      record_artifacts fs material_paths algs = .ok materials →
      run_command w cmd_args run_dir = some (.error e) →
      in_toto_run w fs name run_dir material_paths product_paths cmd_args
          key algs =
        some (.error e,
          [RunEvent.record_materials, RunEvent.run_the_command])) ∧
    (∀ (w : World) (fs : FS) (name : String) (run_dir : Option String)
        (material_paths product_paths : List String)
        (cmd_args : List String) (key : Option PrivateKey)
        (algs : Option (List String)) (materials : ArtifactMap)
        (byproducts : List (String × String)) (e : Error),
      record_artifacts fs material_paths algs = .ok materials →
      run_command w cmd_args run_dir = some (.ok byproducts) →
      record_artifacts fs product_paths algs = .error e →
      in_toto_run w fs name run_dir material_paths product_paths cmd_args
          key algs =
        some (.error e,
          [RunEvent.record_materials, RunEvent.run_the_command,
            RunEvent.record_products])) ∧
    (∀ (w : World) (fs : FS) (name : String) (run_dir : Option String)
        (material_paths product_paths : List String)
        (cmd_args : List String) (algs : Option (List String))
        (materials products : ArtifactMap)
        (byproducts : List (String × String)) (key : Option PrivateKey),
      record_artifacts fs material_paths algs = .ok materials →
      run_command w cmd_args run_dir = some (.ok byproducts) →
      record_artifacts fs product_paths algs = .ok products →
      in_toto_run w fs name run_dir material_paths product_paths cmd_args
          key algs =
        some ((match key with
          | some k => .ok (.signed ⟨name, materials, products, byproducts⟩ k)
          | none => .ok (.unsigned ⟨name, materials, products, byproducts⟩)),
          [RunEvent.record_materials, RunEvent.run_the_command,
            RunEvent.record_products])) := by
  refine ⟨?_, ?_, ?_, ?_⟩
  · intro w fs name run_dir material_paths product_paths cmd_args key algs e h
    simp [in_toto_run, h]
  · intro w fs name run_dir material_paths product_paths cmd_args key algs
      materials e hm hc
    simp [in_toto_run, hm, hc, wbind]
  · intro w fs name run_dir material_paths product_paths cmd_args key algs
      materials byproducts e hm hc hp
    simp [in_toto_run, hm, hc, hp, wbind]
  · intro w fs name run_dir material_paths product_paths cmd_args algs
      materials products byproducts key hm hc hp
    cases key with
    | some k => simp [in_toto_run, hm, hc, hp, wbind, assemble]
    | none => simp [in_toto_run, hm, hc, hp, wbind, assemble]

/-- Closed instance of in_toto_run_ordering: the all-success case on the
fixtures, with a key supplied, yields a signed envelope after the three
phases in order. -/
theorem in_toto_run_ordering_witness :
    in_toto_run wA fsA ("demo") none ["root"] ["root"] ["sh"] (some 5)
        none =
      some (.ok (.signed
          ⟨"demo", [("root/f", tdA), ("root/s", tdA)],
            [("root/f", tdA), ("root/s", tdA)],
            [("return-value", "0"), ("stderr", ""), ("stdout", "hello")]⟩ 5),
        [RunEvent.record_materials, RunEvent.run_the_command,
          RunEvent.record_products]) :=
  in_toto_run_ordering.2.2.2 wA fsA ("demo") none ["root"] ["root"] ["sh"]
    none [("root/f", tdA), ("root/s", tdA)]
    [("root/f", tdA), ("root/s", tdA)]
    [("return-value", "0"), ("stderr", ""), ("stdout", "hello")] (some 5)
    (by rfl) (by rfl) (by rfl)


/-- Irreflexivity of the character comparison. -/
theorem charLtB_irrefl (c : Char) : charLtB c c = false := by
  simp [charLtB]

/-- Asymmetry of the character comparison. -/
theorem charLtB_asymm {c d : Char} (h : charLtB c d = true) :
    charLtB d c = false := by
  unfold charLtB at h ⊢
  simp only [decide_eq_true_eq] at h
  simp only [decide_eq_false_iff_not]
  omega

/-- Transitivity of the character comparison. -/
theorem charLtB_trans {c d e : Char} (h1 : charLtB c d = true)
    (h2 : charLtB d e = true) : charLtB c e = true := by
  unfold charLtB at h1 h2 ⊢
  simp only [decide_eq_true_eq] at h1 h2 ⊢
  omega

/-- Two characters neither of which is below the other are equal. -/
theorem charLtB_eq {c d : Char} (h1 : charLtB c d = false)
    (h2 : charLtB d c = false) : c = d := by
  unfold charLtB at h1 h2
  simp only [decide_eq_false_iff_not] at h1 h2
  have h : c.toNat = d.toNat := by omega
  exact Char.eq_of_val_eq (by exact UInt32.ext h)

/-- Irreflexivity of the lexicographic character-list order. -/
theorem charListLtB_irrefl (l : List Char) : charListLtB l l = false := by
  induction l with
  | nil => rfl
  | cons c cs ih => simp [charListLtB, charLtB_irrefl, ih]

/-- Asymmetry of the lexicographic character-list order. -/
theorem charListLtB_asymm :
    ∀ {a b : List Char}, charListLtB a b = true → charListLtB b a = false := by
  intro a
  induction a with
  | nil =>
    intro b h
    cases b with
    | nil => simp [charListLtB] at h
    | cons d ds => rfl
  | cons c cs ih =>
    intro b h
    cases b with
    | nil => simp [charListLtB] at h
    | cons d ds =>
      simp only [charListLtB] at h ⊢
      cases h1 : charLtB c d with
      | true => simp [h1, charLtB_asymm h1]
      | false =>
        cases h2 : charLtB d c with
        | true => simp [h1, h2] at h
        | false =>
          simp only [h1, h2] at h
          simp at h
          simp [h1, h2, ih h]

/-- Transitivity of the lexicographic character-list order. -/
theorem charListLtB_trans :
    ∀ {a b c : List Char}, charListLtB a b = true → charListLtB b c = true →
      charListLtB a c = true := by
  intro a
  induction a with
  | nil =>
    intro b c h1 h2
    cases c with
    | nil =>
      cases b with
      | nil => simp [charListLtB] at h1
      | cons y ys => simp [charListLtB] at h2
    | cons z zs => rfl
  | cons x xs ih =>
    intro b c h1 h2
    cases b with
    | nil => simp [charListLtB] at h1
    | cons y ys =>
      cases c with
      | nil => simp [charListLtB] at h2
      | cons z zs =>
        simp only [charListLtB] at h1 h2 ⊢
        cases hxy : charLtB x y with
        | true =>
          cases hyz : charLtB y z with
          | true => simp [charLtB_trans hxy hyz]
          | false =>
            cases hzy : charLtB z y with
            | true => simp [hyz, hzy] at h2
            | false =>
              have hy : y = z := charLtB_eq hyz hzy
              subst hy
              simp [hxy]
        | false =>
          cases hyx : charLtB y x with
          | true => simp [hxy, hyx] at h1
          | false =>
            have hx : x = y := charLtB_eq hxy hyx
            subst hx
            simp only [hxy] at h1
            simp at h1
            cases hyz : charLtB x z with
            | true => simp [hyz]
            | false =>
              cases hzy : charLtB z x with
              | true => simp [hyz, hzy] at h2
              | false =>
                simp only [hyz, hzy] at h2
                simp at h2
                simp [hyz, hzy, ih h1 h2]

/-- Two character lists neither of which is below the other are equal. -/
theorem charListLtB_eq :
    ∀ {a b : List Char}, charListLtB a b = false → charListLtB b a = false →
      a = b := by
  intro a
  induction a with
  | nil =>
    intro b h1 h2
    cases b with
    | nil => rfl
    | cons d ds => simp [charListLtB] at h1
  | cons x xs ih =>
    intro b h1 h2
    cases b with
    | nil => simp [charListLtB] at h2
    | cons y ys =>
      simp only [charListLtB] at h1 h2
      cases hxy : charLtB x y with
      | true => simp [hxy] at h1
      | false =>
        cases hyx : charLtB y x with
        | true => simp [hyx] at h2
        | false =>
          simp only [hxy, hyx] at h1 h2
          simp at h1 h2
          rw [charLtB_eq hxy hyx, ih h1 h2]

/-- Irreflexivity of the string order of the map embedding. -/
theorem strLtB_irrefl (a : String) : strLtB a a = false :=
  charListLtB_irrefl a.data

/-- Asymmetry of the string order of the map embedding. -/
theorem strLtB_asymm {a b : String} (h : strLtB a b = true) :
    strLtB b a = false :=
  charListLtB_asymm h

/-- Transitivity of the string order of the map embedding. -/
theorem strLtB_trans {a b c : String} (h1 : strLtB a b = true)
    (h2 : strLtB b c = true) : strLtB a c = true :=
  charListLtB_trans h1 h2

/-- Totality up to equality of the string order of the map embedding. -/
theorem strLtB_eq {a b : String} (h1 : strLtB a b = false)
    (h2 : strLtB b a = false) : a = b := by
  cases a with
  | mk la =>
    cases b with
    | mk lb =>
      have h := charListLtB_eq (a := la) (b := lb) h1 h2
      rw [h]

/-- Strictly smaller strings are distinct. -/
theorem strLtB_ne {a b : String} (h : strLtB a b = true) : a ≠ b := by
  intro he
  rw [he, strLtB_irrefl] at h
  exact Bool.noConfusion h

/-- Every entry of an insertion result is the inserted pair or an original
entry. -/
theorem btInsert_subset {β : Type} (k : String) (v : β) :
    ∀ (l : List (String × β)) (p : String × β), p ∈ btInsert k v l →
      p = (k, v) ∨ p ∈ l := by
  intro l
  induction l with
  | nil =>
    intro p hp
    simp [btInsert] at hp
    exact Or.inl hp
  | cons q t ih =>
    intro p hp
    obtain ⟨k', v'⟩ := q
    cases h1 : strLtB k k' with
    | true =>
      simp only [btInsert, h1] at hp
      simp at hp
      rcases hp with h | h | h
      · exact Or.inl (by simp [h])
      · exact Or.inr (by simp [h])
      · exact Or.inr (by simp [h])
    | false =>
      cases h2 : strLtB k' k with
      | true =>
        simp only [btInsert, h1, h2] at hp
        simp at hp
        rcases hp with h | h
        · exact Or.inr (by simp [h])
        · rcases ih p h with h' | h'
          · exact Or.inl h'
          · exact Or.inr (by simp [h'])
      | false =>
        simp only [btInsert, h1, h2] at hp
        simp at hp
        rcases hp with h | h
        · exact Or.inl (by simp [h])
        · exact Or.inr (by simp [h])

/-- Insertion into a sorted map keeps it sorted. -/
theorem btInsert_sorted {β : Type} (k : String) (v : β) :
    ∀ {l : List (String × β)}, SortedKeys l → SortedKeys (btInsert k v l) := by
  intro l
  induction l with
  | nil =>
    intro _
    simp [btInsert, SortedKeys]
  | cons q t ih =>
    intro h
    obtain ⟨k', v'⟩ := q
    rw [SortedKeys, List.pairwise_cons] at h
    obtain ⟨hall, ht⟩ := h
    cases h1 : strLtB k k' with
    | true =>
      simp only [btInsert, h1, if_true]
      refine List.Pairwise.cons ?_ (List.Pairwise.cons hall ht)
      intro p hp
      rcases List.mem_cons.mp hp with h | h
      · simp [h, h1]
      · exact strLtB_trans h1 (hall p h)
    | false =>
      cases h2 : strLtB k' k with
      | true =>
        simp only [btInsert, h1, h2]
        simp only [Bool.false_eq_true, if_false, if_true]
        refine List.Pairwise.cons ?_ (ih ht)
        intro p hp
        rcases btInsert_subset k v t p hp with h | h
        · simp [h, h2]
        · exact hall p h
      | false =>
        have hk : k = k' := strLtB_eq h1 h2
        subst hk
        simp only [btInsert, h1, h2]
        simp only [Bool.false_eq_true, if_false]
        exact List.Pairwise.cons hall ht

/-- Lookup of the key just inserted returns the inserted value. -/
theorem btFind_insert_self {β : Type} (k : String) (v : β) :
    ∀ (l : List (String × β)), btFind k (btInsert k v l) = some v := by
  intro l
  induction l with
  | nil => simp [btInsert, btFind]
  | cons q t ih =>
    obtain ⟨k', v'⟩ := q
    cases h1 : strLtB k k' with
    | true => simp [btInsert, h1, btFind]
    | false =>
      cases h2 : strLtB k' k with
      | true =>
        have hne : k ≠ k' := Ne.symm (strLtB_ne h2)
        simp [btInsert, h1, h2, btFind, hne, ih]
      | false =>
        have hk : k = k' := strLtB_eq h1 h2
        subst hk
        simp [btInsert, h1, h2, btFind]

/-- Lookup of a different key is unchanged by an insertion. -/
theorem btFind_insert_ne {β : Type} {j k : String} (hne : j ≠ k) (v : β) :
    ∀ (l : List (String × β)), btFind j (btInsert k v l) = btFind j l := by
  intro l
  induction l with
  | nil => simp [btInsert, btFind, hne]
  | cons q t ih =>
    obtain ⟨k', v'⟩ := q
    cases h1 : strLtB k k' with
    | true => simp [btInsert, h1, btFind, hne]
    | false =>
      cases h2 : strLtB k' k with
      | true => simp [btInsert, h1, h2, btFind, ih]
      | false =>
        have hk : k = k' := strLtB_eq h1 h2
        subst hk
        simp [btInsert, h1, h2, btFind, hne]

/-- Lookup of a key absent from the key list fails. -/
theorem btFind_none_of_not_mem {β : Type} {k : String} :
    ∀ {l : List (String × β)}, k ∉ l.map Prod.fst → btFind k l = none := by
  intro l
  induction l with
  | nil => intro _; rfl
  | cons q t ih =>
    intro h
    obtain ⟨k', v'⟩ := q
    simp only [List.map_cons, List.mem_cons] at h
    push_neg at h
    simp [btFind, h.1, ih h.2]

/-- A successful lookup exhibits a list entry. -/
theorem btFind_some_mem {β : Type} {k : String} {v : β} :
    ∀ {l : List (String × β)}, btFind k l = some v → (k, v) ∈ l := by
  intro l
  induction l with
  | nil => intro h; simp [btFind] at h
  | cons q t ih =>
    obtain ⟨k', v'⟩ := q
    intro h
    by_cases he : k = k'
    · subst he
      simp [btFind] at h
      simp [h]
    · simp [btFind, he] at h
      exact List.mem_cons_of_mem _ (ih h)

/-- Inserting entries whose keys avoid a key leaves its lookup unchanged. -/
theorem insertAll_find_not_mem {β : Type} {k : String} :
    ∀ (l : List (String × β)) (init : List (String × β)),
      k ∉ l.map Prod.fst → btFind k (insertAll l init) = btFind k init := by
  intro l
  induction l with
  | nil => intro init _; rfl
  | cons p t ih =>
    intro init h
    simp only [List.map_cons, List.mem_cons] at h
    push_neg at h
    simp only [insertAll]
    rw [ih _ h.2, btFind_insert_ne h.1]

/-- With pairwise distinct keys, inserting all entries makes the lookup of
any present key return its unique listed value. -/
theorem insertAll_find_mem {β : Type} {k : String} {v : β} :
    ∀ (l : List (String × β)) (init : List (String × β)),
      (l.map Prod.fst).Nodup → (k, v) ∈ l →
      btFind k (insertAll l init) = some v := by
  intro l
  induction l with
  | nil => intro init _ hm; simp at hm
  | cons p t ih =>
    intro init hnd hm
    obtain ⟨k', v'⟩ := p
    simp only [List.map_cons, List.nodup_cons] at hnd
    obtain ⟨hnotin, hndt⟩ := hnd
    rcases List.mem_cons.mp hm with he | ht
    · cases he
      simp only [insertAll]
      rw [insertAll_find_not_mem t _ hnotin, btFind_insert_self]
    · simp only [insertAll]
      exact ih _ hndt ht

/-- Inserting entries into a sorted map keeps it sorted. -/
theorem insertAll_sorted {β : Type} :
    ∀ (l : List (String × β)) (init : List (String × β)),
      SortedKeys init → SortedKeys (insertAll l init) := by
  intro l
  induction l with
  | nil => intro init h; exact h
  | cons p t ih => intro init h; exact ih _ (btInsert_sorted p.1 p.2 h)

/-- A list head strictly below all keys of the tail is absent from it. -/
theorem sorted_head_not_mem {β : Type} {k : String} {t : List (String × β)}
    (hall : ∀ p ∈ t, strLtB k p.1 = true) : k ∉ t.map Prod.fst := by
  intro hmem
  obtain ⟨p, hp, hpk⟩ := List.mem_map.mp hmem
  have h := hall p hp
  rw [hpk, strLtB_irrefl] at h
  exact Bool.noConfusion h

/-- Two sorted maps with the same lookup function are equal. -/
theorem sorted_ext {β : Type} :
    ∀ (l₁ l₂ : List (String × β)), SortedKeys l₁ → SortedKeys l₂ →
      (∀ k, btFind k l₁ = btFind k l₂) → l₁ = l₂ := by
  intro l₁
  induction l₁ with
  | nil =>
    intro l₂ _ _ hf
    cases l₂ with
    | nil => rfl
    | cons q t =>
      obtain ⟨k₂, v₂⟩ := q
      have h := hf k₂
      simp [btFind] at h
  | cons p t₁ ih =>
    intro l₂ h₁ h₂ hf
    obtain ⟨k₁, v₁⟩ := p
    cases l₂ with
    | nil =>
      have h := hf k₁
      simp [btFind] at h
    | cons q t₂ =>
      obtain ⟨k₂, v₂⟩ := q
      rw [SortedKeys, List.pairwise_cons] at h₁ h₂
      obtain ⟨hall₁, ht₁⟩ := h₁
      obtain ⟨hall₂, ht₂⟩ := h₂
      have hk : k₁ = k₂ := by
        by_contra hne
        have e₁ := hf k₁
        have e₂ := hf k₂
        simp [btFind, hne, Ne.symm hne] at e₁ e₂
        have m₁ := btFind_some_mem e₁.symm
        have m₂ := btFind_some_mem e₂
        have o₁ := hall₂ _ m₁
        have o₂ := hall₁ _ m₂
        simp only at o₁ o₂
        rw [strLtB_asymm o₁] at o₂
        exact Bool.noConfusion o₂
      subst hk
      have hv : v₁ = v₂ := by
        have h := hf k₁
        simpa [btFind] using h
      subst hv
      have htail : ∀ j, btFind j t₁ = btFind j t₂ := by
        intro j
        by_cases hj : j = k₁
        · subst hj
          rw [btFind_none_of_not_mem (sorted_head_not_mem hall₁),
            btFind_none_of_not_mem (sorted_head_not_mem hall₂)]
        · have h := hf j
          simpa [btFind, hj] using h
      exact congrArg _ (ih t₂ ht₁ ht₂ htail)

/-- The walk loop preserves sortedness of the accumulated artifact map. -/
theorem walk_loop_sorted (fs : FS) (algs : List HashAlgorithm) :
    ∀ (fuel : Nat) (evs : List WalkEvent) (visited : List String)
      (artifacts m : ArtifactMap), SortedKeys artifacts →
      walk_loop fs algs fuel evs visited artifacts = .ok m →
      SortedKeys m := by
  intro fuel
  induction fuel with
  | zero =>
    intro evs visited artifacts m hs h
    cases evs with
    | nil =>
      simp only [walk_loop] at h
      injection h with h2
      subst h2
      exact hs
    | cons e t =>
      simp only [walk_loop] at h
      injection h with h2
      subst h2
      exact hs
  | succ fuel ih =>
    intro evs visited artifacts m hs h
    cases evs with
    | nil =>
      simp only [walk_loop] at h
      injection h with h2
      subst h2
      exact hs
    | cons ev rest =>
      simp only [walk_loop] at h
      repeat' split at h
      all_goals first
        | (exact Except.noConfusion h)
        | (injection h with h2; subst h2; exact hs)
        | (exact ih _ _ _ _ hs h)
        | (exact ih _ _ _ _ (btInsert_sorted _ _ hs) h)

/-- The outer loop over root paths preserves sortedness of the accumulated
artifact map. -/
theorem walk_roots_sorted (fs : FS) (algs : List HashAlgorithm) :
    ∀ (roots : List String) (artifacts m : ArtifactMap),
      SortedKeys artifacts →
      walk_roots fs algs roots artifacts = .ok m → SortedKeys m := by
  intro roots
  induction roots with
  | nil =>
    intro artifacts m hs h
    simp only [walk_roots] at h
    injection h with h2
    subst h2
    exact hs
  | cons r rs ih =>
    intro artifacts m hs h
    simp only [walk_roots] at h
    split at h
    · simp at h
    · rename_i artifacts2 heq
      exact ih _ _ (walk_loop_sorted fs algs _ _ _ _ _ hs heq) h

/-- C2: determinism of record_artifacts. The embedding is a pure function
of the filesystem snapshot, so equal snapshots give equal results; every
ok result is sorted by its natural key order; and sequential insertion of
any set of distinct-key entries into the map embedding yields the same
sorted map whatever the insertion order, so the traversal insertion order
cannot influence the returned ArtifactMap. -/
theorem record_artifacts_deterministic :
    (∀ (fs₁ fs₂ : FS) (paths : List String) (algs : Option (List String)),
      fs₁ = fs₂ →
      record_artifacts fs₁ paths algs = record_artifacts fs₂ paths algs) ∧
    (∀ (fs : FS) (paths : List String) (algs : Option (List String))
        (m : ArtifactMap),
      record_artifacts fs paths algs = .ok m → SortedKeys m) ∧
    (∀ (l₁ l₂ : List (String × TargetDescription)),
      List.Perm l₁ l₂ → (l₁.map Prod.fst).Nodup →
      insertAll l₁ [] = insertAll l₂ []) := by
  refine ⟨?_, ?_, ?_⟩
  · intro fs₁ fs₂ paths algs h
    rw [h]
  · intro fs paths algs m h
    rw [record_artifacts] at h
    split at h
    · simp at h
    · exact walk_roots_sorted fs _ paths [] m (List.Pairwise.nil) h
  · intro l₁ l₂ hperm hnd
    have hnd₂ : (l₂.map Prod.fst).Nodup :=
      ((hperm.map Prod.fst).nodup_iff).mp hnd
    refine sorted_ext _ _ (insertAll_sorted l₁ [] List.Pairwise.nil)
      (insertAll_sorted l₂ [] List.Pairwise.nil) ?_
    intro k
    by_cases hk : k ∈ l₁.map Prod.fst
    · obtain ⟨p, hp, hpk⟩ := List.mem_map.mp hk
      obtain ⟨k', v⟩ := p
      have hk' : k' = k := hpk
      subst hk'
      rw [insertAll_find_mem l₁ [] hnd hp,
        insertAll_find_mem l₂ [] hnd₂ (hperm.mem_iff.mp hp)]
    · have hk₂ : k ∉ l₂.map Prod.fst := fun hm =>
        hk (((hperm.map Prod.fst).mem_iff).mpr hm)
      rw [insertAll_find_not_mem l₁ [] hk, insertAll_find_not_mem l₂ [] hk₂]

/-- Closed instance of record_artifacts_deterministic: two runs on the
fixture coincide, the fixture result is sorted, and two opposite insertion
orders of two distinct keys produce the same map. -/
theorem record_artifacts_deterministic_witness :
    (record_artifacts fsA ["root"] none = record_artifacts fsA ["root"] none) ∧
    SortedKeys [("root/f", tdA), ("root/s", tdA)] ∧
    insertAll [("b", tdA), ("a", tdA)] [] =
      insertAll [("a", tdA), ("b", tdA)] [] :=
  ⟨record_artifacts_deterministic.1 fsA fsA ["root"] none rfl,
    record_artifacts_deterministic.2.1 fsA ["root"] none
      [("root/f", tdA), ("root/s", tdA)] (by rfl),
    record_artifacts_deterministic.2.2 [("b", tdA), ("a", tdA)]
      [("a", tdA), ("b", tdA)]
      (List.Perm.swap ("a", tdA) ("b", tdA) []) (by decide)⟩
